import Mathlib

/-!
Verification of the stock-position accounting core of the family-budget
backend (`app/stocks/crud.py` together with the data model in
`app/models.py` and the schemas in `app/stocks/schemas.py`).

Modelling conventions:
* money (the `CurrencyValue` type: a decimal with 4 fractional digits,
  quantized at every construction boundary) is embedded as `ℤ`, reading an
  integer as an exact multiple of the currency quantum 10⁻⁴.  The code
  only ever adds, subtracts and compares money, and multiplies money by an
  integer share count — never money by money and never division — and all
  of those operations on 4-place decimals correspond exactly to the same
  operations on their scaled integer representatives, so the embedding is
  faithful;
* share counts are `ℕ` (the model constrains `count_active ≥ 0`);
* timestamps are `ℕ` (only their ordering matters to the code);
* SQL rows are Lean structures, a table is a `List`;
* the `SELECT … ORDER BY datetime_opened` query is modelled relationally:
  a valid result is any permutation of the filtered rows that is weakly
  sorted by `datetime_opened`, which is exactly what the SQL guarantees;
* Python exceptions are an explicit error type, and the in-place mutation
  of the ORM `account` object performed by `perform_account_transaction`
  before its checks is kept visible: the function returns the mutated
  account together with the (possible) error.
-/

namespace FamilyBudget

/-- `AccountTransactionType` enum from `app/stocks/schemas.py`. -/
inductive AccountTransactionType where
  | dividends
  | deposit
  | withdrawal
  | stock_in
  | stock_out
deriving DecidableEq, Repr

/-- `StockAccount` row from `app/models.py` (the fields the core reads). -/
structure StockAccount where
  id : Nat
  balance : ℤ
deriving DecidableEq, Repr

/-- `StockPosition` row from `app/models.py`. -/
structure StockPosition where
  id : Nat
  count_active : Nat
  datetime_opened : Nat
  account_id : Nat
  price_per_stock_in : ℤ
  stock_symbol_id : Nat
deriving DecidableEq, Repr

/-- `AccountTransactionData` schema from `app/stocks/schemas.py`.
`stock_symbol_id` and `stock_position_id` are optional (`default=None`). -/
structure AccountTransactionData where
  datetime_performed : Nat
  account_id : Nat
  total_amount : ℤ
  transaction_type : AccountTransactionType
  price_per_item : ℤ
  count_items : Nat
  paid_fee : ℤ
  stock_symbol_id : Option Nat
  stock_position_id : Option Nat
deriving DecidableEq, Repr

/-- `StockPositionOpen` schema from `app/stocks/schemas.py`. -/
structure StockPositionOpen where
  stock_symbol_id : Nat
  count : Nat
  price_per_stock : ℤ
  paid_fee : ℤ
  datetime_opened : Nat
deriving DecidableEq, Repr

/-- `StockPositionClose` schema from `app/stocks/schemas.py`. -/
structure StockPositionClose where
  stock_symbol_id : Nat
  count : Nat
  price_per_stock : ℤ
  paid_fee : ℤ
  datetime_closed : Nat
deriving DecidableEq, Repr

/-- The exceptions raised by the accounting core:
`ParameterMissingException`, `ValueError("Not enough money.")` and
`ValueError("Cannot close stock positions: …")` (with the remaining count). -/
inductive TxError where
  | parameterMissing (msg : String)
  | notEnoughMoney
  | cannotClose (remaining : Nat)
deriving DecidableEq, Repr

instance {ε α : Type} [DecidableEq ε] [DecidableEq α] : DecidableEq (Except ε α) :=
  fun a b =>
  match a, b with
  | .error x, .error y =>
    if h : x = y then .isTrue (by rw [h]) else .isFalse (by simp [h])
  | .ok x, .ok y =>
    if h : x = y then .isTrue (by rw [h]) else .isFalse (by simp [h])
  | .error _, .ok _ => .isFalse (by simp)
  | .ok _, .error _ => .isFalse (by simp)

/-- Python truthiness of an optional integer field: falsy when `None` or `0`
(the code tests `transaction.stock_position_id and transaction.stock_symbol_id`). -/
def truthyId : Option Nat → Bool
  | none => false
  | some n => n != 0

/-- `perform_account_transaction` from `app/stocks/crud.py` (lines 126–147).
The `match` on the transaction type mutates `account.balance` first; the
validation checks run afterwards, on the already-mutated account.  The
returned pair is (mutated ORM account object, raised exception if any);
when the second component is `none`, the ledger entry `transaction` is
appended by the session. -/
def perform_account_transaction (account : StockAccount)
    (transaction : AccountTransactionData) : StockAccount × Option TxError :=
  let account :=
    match transaction.transaction_type with
    | .stock_in | .withdrawal =>
        { account with
            balance := account.balance - (transaction.total_amount + transaction.paid_fee) }
    | .stock_out | .dividends | .deposit =>
        { account with
            balance := account.balance + (transaction.total_amount - transaction.paid_fee) }
  if (transaction.transaction_type = .stock_in ∨ transaction.transaction_type = .stock_out) ∧
      ¬(truthyId transaction.stock_position_id ∧ truthyId transaction.stock_symbol_id) then
    (account, some (.parameterMissing "Missing stock position ID or stock symbol ID."))
  else if transaction.transaction_type = .dividends ∧
      ¬truthyId transaction.stock_symbol_id then
    (account, some (.parameterMissing "Missing stock symbol ID."))
  else if account.balance < 0 then
    (account, some .notEnoughMoney)
  else
    (account, none)

/-- The `StockPosition` row created by
`open_stock_position_with_transaction` (lines 59–65); `new_position_id`
stands for the primary key assigned by the database at `flush`. -/
def open_position (account : StockAccount)
    (stock_position_data : StockPositionOpen) (new_position_id : Nat) :
    StockPosition :=
  { id := new_position_id
    count_active := stock_position_data.count
    datetime_opened := stock_position_data.datetime_opened
    account_id := account.id
    price_per_stock_in := stock_position_data.price_per_stock
    stock_symbol_id := stock_position_data.stock_symbol_id }

/-- The `AccountTransactionData` literal built by
`open_stock_position_with_transaction` (lines 70–80). -/
def open_transaction (account : StockAccount)
    (stock_position_data : StockPositionOpen) (new_position_id : Nat) :
    AccountTransactionData :=
  { datetime_performed :=
      (open_position account stock_position_data new_position_id).datetime_opened
    account_id := account.id
    total_amount :=
      (open_position account stock_position_data new_position_id).price_per_stock_in *
        (open_position account stock_position_data new_position_id).count_active
    transaction_type := .stock_in
    price_per_item :=
      (open_position account stock_position_data new_position_id).price_per_stock_in
    count_items := (open_position account stock_position_data new_position_id).count_active
    paid_fee := stock_position_data.paid_fee
    stock_symbol_id :=
      some (open_position account stock_position_data new_position_id).stock_symbol_id
    stock_position_id :=
      some (open_position account stock_position_data new_position_id).id }

/-- `open_stock_position_with_transaction` from `app/stocks/crud.py`
(lines 55–82).  On success the result is the updated account and the
created position; on failure the transaction rolls back, so nothing of the
operation persists. -/
def open_stock_position_with_transaction (account : StockAccount)
    (stock_position_data : StockPositionOpen) (new_position_id : Nat) :
    Except TxError (StockAccount × StockPosition) :=
  match perform_account_transaction account
      (open_transaction account stock_position_data new_position_id) with
  | (_, some e) => .error e
  | (mutated_account, none) =>
      .ok (mutated_account, open_position account stock_position_data new_position_id)

/-- The `AccountTransactionData` literal built inside the FIFO loop of
`close_stock_positions_with_transactions` (lines 104–114). -/
def close_transaction (stock_position_to_close : StockPositionClose)
    (account : StockAccount) (stock_position : StockPosition)
    (subtracted_count : Nat) : AccountTransactionData :=
  { datetime_performed := stock_position_to_close.datetime_closed
    account_id := account.id
    total_amount := stock_position_to_close.price_per_stock * subtracted_count
    transaction_type := .stock_out
    price_per_item := stock_position_to_close.price_per_stock
    count_items := subtracted_count
    paid_fee := stock_position_to_close.paid_fee
    stock_symbol_id := some stock_position_to_close.stock_symbol_id
    stock_position_id := some stock_position.id }

/-- The `for stock_position in stock_positions:` loop of
`close_stock_positions_with_transactions` (lines 97–123), including the
final `if total_count_to_subtract > 0: raise ValueError(…)`.
On success it returns the updated account, the lot list with the in-place
decrements applied (lots after the `break` point untouched), and the
ledger entries created (one per iteration).  An exception from
`perform_account_transaction` propagates and the surrounding transaction
rolls back, so the error branch carries no partial state. -/
def close_loop (stock_position_to_close : StockPositionClose)
    (account : StockAccount) (total_count_to_subtract : Nat) :
    List StockPosition →
    Except TxError (StockAccount × List StockPosition × List AccountTransactionData)
  | [] =>
    if 0 < total_count_to_subtract then
      .error (.cannotClose total_count_to_subtract)
    else
      .ok (account, [], [])
  | stock_position :: rest =>
    let subtracted_count := min total_count_to_subtract stock_position.count_active
    let stock_position :=
      { stock_position with count_active := stock_position.count_active - subtracted_count }
    let remaining := total_count_to_subtract - subtracted_count
    let transaction := close_transaction stock_position_to_close account stock_position
      subtracted_count
    match perform_account_transaction account transaction with
    | (_, some e) => .error e
    | (account, none) =>
      if remaining = 0 then
        .ok (account, stock_position :: rest, [transaction])
      else
        match close_loop stock_position_to_close account remaining rest with
        | .error e => .error e
        | .ok (accountF, restF, ledger) =>
            .ok (accountF, stock_position :: restF, transaction :: ledger)

/-- The filter of the lot query in `close_stock_positions_with_transactions`
(lines 89–93): open lots (`count_active > 0`) of this account and symbol. -/
def open_lots_filter (table : List StockPosition) (account : StockAccount)
    (stock_symbol_id : Nat) : List StockPosition :=
  table.filter fun p =>
    p.account_id == account.id && p.count_active != 0 && p.stock_symbol_id == stock_symbol_id

/-- What `SELECT … ORDER BY StockPosition.datetime_opened` (line 94)
guarantees about the returned row list: it is a permutation of the filtered
rows, weakly sorted by `datetime_opened`.  The SQL standard fixes nothing
more; in particular rows sharing a `datetime_opened` may come back in any
relative order. -/
def is_open_lots_result (table : List StockPosition) (account : StockAccount)
    (stock_symbol_id : Nat) (result : List StockPosition) : Prop :=
  result.Perm (open_lots_filter table account stock_symbol_id) ∧
  result.Sorted fun a b => a.datetime_opened ≤ b.datetime_opened

instance (table : List StockPosition) (account : StockAccount)
    (stock_symbol_id : Nat) (result : List StockPosition) :
    Decidable (is_open_lots_result table account stock_symbol_id result) := by
  unfold is_open_lots_result List.Sorted
  infer_instance

/-- `close_stock_positions_with_transactions` (lines 85–123) applied to a
row list returned by the lot query. -/
def close_stock_positions_with_transactions
    (stock_position_to_close : StockPositionClose) (account : StockAccount)
    (stock_positions : List StockPosition) :
    Except TxError (StockAccount × List StockPosition × List AccountTransactionData) :=
  close_loop stock_position_to_close account stock_position_to_close.count stock_positions

/-- Sum of `count_active` over a list of lots. -/
def sum_count_active (lots : List StockPosition) : Nat :=
  (lots.map fun p => p.count_active).sum

/-- Specification-side description of the FIFO drain, following the spec's
words: walking the lots in the given order, each touched lot is decremented
by `consumed = min(remaining, lot.quantity_active)` and `remaining`
decreases by `consumed`, so lots reached after `remaining` hits `0` are
unchanged.  Used to state the refinement claims about `close_loop`. -/
def fifoSpecClose (remaining : Nat) : List StockPosition → List StockPosition
  | [] => []
  | p :: rest =>
    let consumed := min remaining p.count_active
    { p with count_active := p.count_active - consumed } ::
      fifoSpecClose (remaining - consumed) rest

/-- The signed cash delta a transaction applies to the account balance, as
the spec states it: `−(total_amount + fee)` for the debit kinds and
`+(total_amount − fee)` for the credit kinds. -/
def transaction_delta (transaction : AccountTransactionData) : ℤ :=
  match transaction.transaction_type with
  | .stock_in | .withdrawal => -(transaction.total_amount + transaction.paid_fee)
  | .stock_out | .dividends | .deposit => transaction.total_amount - transaction.paid_fee

/-- The reference fields required by `perform_account_transaction`'s
`ParameterMissingException` checks are present (truthy). -/
def refs_present (transaction : AccountTransactionData) : Prop :=
  ((transaction.transaction_type = .stock_in ∨ transaction.transaction_type = .stock_out) →
    truthyId transaction.stock_position_id = true ∧
    truthyId transaction.stock_symbol_id = true) ∧
  (transaction.transaction_type = .dividends → truthyId transaction.stock_symbol_id = true)

instance (transaction : AccountTransactionData) : Decidable (refs_present transaction) := by
  unfold refs_present
  infer_instance

/-- The state an account's stock portfolio evolves through: the account row
and the `stockposition` rows belonging to it. -/
structure PortfolioState where
  account : StockAccount
  positions : List StockPosition
deriving DecidableEq, Repr

/-- One committed (successfully flushed) operation of the accounting core:
an `open_stock_position_with_transaction` call that returned a position, or
a `close_stock_positions_with_transactions` call that returned without
raising, run on some row list the lot query may return.  Failed operations
roll back and produce no step. -/
inductive CommittedStep : PortfolioState → PortfolioState → Prop where
  | openPos (s : PortfolioState) (d : StockPositionOpen) (new_position_id : Nat)
      (a' : StockAccount) (p : StockPosition) :
      open_stock_position_with_transaction s.account d new_position_id = .ok (a', p) →
      CommittedStep s ⟨a', s.positions ++ [p]⟩
  | closePos (s : PortfolioState) (d : StockPositionClose) (result : List StockPosition)
      (a' : StockAccount) (lots' : List StockPosition)
      (ledger : List AccountTransactionData) :
      is_open_lots_result s.positions s.account d.stock_symbol_id result →
      close_stock_positions_with_transactions d s.account result = .ok (a', lots', ledger) →
      CommittedStep s ⟨a', (s.positions.diff result) ++ lots'⟩

/-! ### Basic facts about `perform_account_transaction` -/

/-- The account object returned by `perform_account_transaction` always
carries `balance + delta`, whatever the checks decide: the mutation happens
before any validation. -/
lemma perform_account_transaction_fst (account : StockAccount)
    (transaction : AccountTransactionData) :
    (perform_account_transaction account transaction).1 =
      { account with balance := account.balance + transaction_delta transaction } := by
  unfold perform_account_transaction transaction_delta
  cases transaction.transaction_type <;>
    simp only [] <;> split_ifs <;> simp <;> ring

/-- When `perform_account_transaction` raises nothing, the final balance
check passed, so the mutated account has nonnegative balance. -/
lemma perform_account_transaction_ok_nonneg (account : StockAccount)
    (transaction : AccountTransactionData)
    (h : (perform_account_transaction account transaction).2 = none) :
    0 ≤ (perform_account_transaction account transaction).1.balance := by
  obtain ⟨dt, aid, ta, ty, ppi, ci, fee, sym, pos⟩ := transaction
  unfold perform_account_transaction at *
  cases ty <;> simp only [] at h ⊢ <;>
    split_ifs at h ⊢ <;> simp_all

/-- Successful `stock_out` ledger application: with the reference ids
truthy and the credited balance nonnegative, `perform_account_transaction`
commits the credit and raises nothing. -/
lemma perform_stock_out_ok (account : StockAccount)
    (transaction : AccountTransactionData)
    (htype : transaction.transaction_type = .stock_out)
    (hpos : truthyId transaction.stock_position_id = true)
    (hsym : truthyId transaction.stock_symbol_id = true)
    (hbal : 0 ≤ account.balance + (transaction.total_amount - transaction.paid_fee)) :
    perform_account_transaction account transaction =
      ({ account with
          balance := account.balance + (transaction.total_amount - transaction.paid_fee) },
        none) := by
  unfold perform_account_transaction
  rw [htype]
  simp [hpos, hsym, not_lt.mpr hbal]

/-! ### Facts about the FIFO closing loop -/

lemma fifoSpecClose_zero (lots : List StockPosition) : fifoSpecClose 0 lots = lots := by
  induction lots with
  | nil => rfl
  | cons p rest ih => simp [fifoSpecClose, ih]

lemma fifoSpecClose_length (remaining : Nat) (lots : List StockPosition) :
    (fifoSpecClose remaining lots).length = lots.length := by
  induction lots generalizing remaining with
  | nil => rfl
  | cons p rest ih => simp [fifoSpecClose, ih]

lemma fifoSpecClose_all_zero (remaining : Nat) (lots : List StockPosition)
    (h : sum_count_active lots ≤ remaining) :
    ∀ p ∈ fifoSpecClose remaining lots, p.count_active = 0 := by
  induction lots generalizing remaining with
  | nil => intro p hp; simp [fifoSpecClose] at hp
  | cons q rest ih =>
    intro p hp
    have hsum : q.count_active + sum_count_active rest ≤ remaining := by
      simpa [sum_count_active] using h
    have hq : q.count_active ≤ remaining := le_trans (Nat.le_add_right _ _) hsum
    simp only [fifoSpecClose, min_eq_right hq, List.mem_cons] at hp
    rcases hp with hp | hp
    · simp [hp]
    · exact ih (remaining - q.count_active) (by omega) p hp

/-- On a committed close, the final lot list is exactly the spec's FIFO
drain of the queried lots. -/
lemma close_loop_ok_lots (d : StockPositionClose) (account : StockAccount)
    (remaining : Nat) (lots : List StockPosition) (a' : StockAccount)
    (lots' : List StockPosition) (ledger : List AccountTransactionData)
    (h : close_loop d account remaining lots = .ok (a', lots', ledger)) :
    lots' = fifoSpecClose remaining lots := by
  induction lots generalizing account remaining a' lots' ledger with
  | nil =>
    unfold close_loop at h
    split_ifs at h with h0
    all_goals cases h
    rfl
  | cons p rest ih =>
    rw [close_loop] at h
    rcases hperf : perform_account_transaction account
        (close_transaction d account
          { p with count_active := p.count_active - min remaining p.count_active }
          (min remaining p.count_active)) with ⟨acc1, err⟩
    rw [hperf] at h
    cases err with
    | some e => simp at h
    | none =>
      simp only at h
      split_ifs at h with hrem
      · simp only [Except.ok.injEq, Prod.mk.injEq] at h
        rw [← h.2.1, fifoSpecClose, hrem, fifoSpecClose_zero]
      · rcases hrec : close_loop d acc1 (remaining - min remaining p.count_active) rest with
          e | ⟨accF, restF, ledgerF⟩
        · rw [hrec] at h; simp at h
        · rw [hrec] at h
          simp only [Except.ok.injEq, Prod.mk.injEq] at h
          rw [← h.2.1, fifoSpecClose]
          exact congrArg _ (ih acc1 _ accF restF ledgerF hrec)

lemma truthyId_some {n : Nat} (h : n ≠ 0) : truthyId (some n) = true := by
  simp [truthyId, h]

lemma transaction_delta_close (d : StockPositionClose) (account : StockAccount)
    (p : StockPosition) (c : Nat) :
    transaction_delta (close_transaction d account p c) =
      d.price_per_stock * c - d.paid_fee := rfl

/-- On a committed close, the ledger holds one `stock_out` entry per
touched lot (in query order, referencing that lot), each carrying the full
requested fee, the slice's quantity and `total_amount = price × quantity`;
the slice quantities sum to the requested close count. -/
lemma close_loop_ok_ledger (d : StockPositionClose) (account : StockAccount)
    (remaining : Nat) (lots : List StockPosition) (a' : StockAccount)
    (lots' : List StockPosition) (ledger : List AccountTransactionData)
    (h : close_loop d account remaining lots = .ok (a', lots', ledger)) :
    (∀ t ∈ ledger, t.transaction_type = .stock_out ∧ t.paid_fee = d.paid_fee ∧
      t.price_per_item = d.price_per_stock ∧
      t.total_amount = d.price_per_stock * t.count_items ∧
      t.stock_symbol_id = some d.stock_symbol_id) ∧
    ledger.map (fun t => t.stock_position_id) =
      (lots.take ledger.length).map (fun p => some p.id) ∧
    (ledger.map (fun t => t.count_items)).sum = remaining := by
  induction lots generalizing account remaining a' lots' ledger with
  | nil =>
    unfold close_loop at h
    split_ifs at h with h0
    all_goals cases h
    refine ⟨by simp, by simp, ?_⟩
    simp only [List.map_nil, List.sum_nil]
    omega
  | cons p rest ih =>
    rw [close_loop] at h
    rcases hperf : perform_account_transaction account
        (close_transaction d account
          { p with count_active := p.count_active - min remaining p.count_active }
          (min remaining p.count_active)) with ⟨acc1, err⟩
    rw [hperf] at h
    cases err with
    | some e => simp at h
    | none =>
      simp only at h
      have hminle : min remaining p.count_active ≤ remaining := Nat.min_le_left _ _
      split_ifs at h with hrem
      · cases h
        refine ⟨?_, by simp [close_transaction], ?_⟩
        · intro t ht
          simp only [List.mem_singleton] at ht
          subst ht
          exact ⟨rfl, rfl, rfl, rfl, rfl⟩
        · simp only [List.map_cons, List.map_nil, List.sum_cons, List.sum_nil,
            close_transaction]
          omega
      · rcases hrec : close_loop d acc1 (remaining - min remaining p.count_active) rest with
          e | ⟨accF, restF, ledgerF⟩
        · rw [hrec] at h; simp at h
        · rw [hrec] at h
          cases h
          obtain ⟨ih1, ih2, ih3⟩ := ih _ _ _ _ _ hrec
          refine ⟨?_, ?_, ?_⟩
          · intro t ht
            simp only [List.mem_cons] at ht
            rcases ht with ht | ht
            · subst ht
              exact ⟨rfl, rfl, rfl, rfl, rfl⟩
            · exact ih1 t ht
          · simp only [List.map_cons, List.length_cons, List.take_succ_cons, ih2,
              close_transaction]
          · simp only [List.map_cons, List.sum_cons, ih3, close_transaction]
            omega

/-- On a committed close, the account's final balance is the starting
balance plus the sum of the per-slice credits `total_amount − fee`. -/
lemma close_loop_ok_balance (d : StockPositionClose) (account : StockAccount)
    (remaining : Nat) (lots : List StockPosition) (a' : StockAccount)
    (lots' : List StockPosition) (ledger : List AccountTransactionData)
    (h : close_loop d account remaining lots = .ok (a', lots', ledger)) :
    a'.balance = account.balance +
      (ledger.map fun t => t.total_amount - t.paid_fee).sum := by
  induction lots generalizing account remaining a' lots' ledger with
  | nil =>
    unfold close_loop at h
    split_ifs at h with h0
    all_goals cases h
    simp
  | cons p rest ih =>
    rw [close_loop] at h
    rcases hperf : perform_account_transaction account
        (close_transaction d account
          { p with count_active := p.count_active - min remaining p.count_active }
          (min remaining p.count_active)) with ⟨acc1, err⟩
    rw [hperf] at h
    cases err with
    | some e => simp at h
    | none =>
      simp only at h
      have hacc1 : acc1.balance = account.balance +
          transaction_delta (close_transaction d account
            { p with count_active := p.count_active - min remaining p.count_active }
            (min remaining p.count_active)) := by
        have := perform_account_transaction_fst account
          (close_transaction d account
            { p with count_active := p.count_active - min remaining p.count_active }
            (min remaining p.count_active))
        rw [hperf] at this
        rw [show acc1 = (acc1, (none : Option TxError)).1 from rfl, this]
      rw [transaction_delta_close] at hacc1
      split_ifs at h with hrem
      · cases h
        rw [hacc1]
        simp [close_transaction]
      · rcases hrec : close_loop d acc1 (remaining - min remaining p.count_active) rest with
          e | ⟨accF, restF, ledgerF⟩
        · rw [hrec] at h; simp at h
        · rw [hrec] at h
          cases h
          rw [ih _ _ _ _ _ hrec, hacc1]
          simp only [List.map_cons, List.sum_cons, close_transaction]
          ring

/-- A committed close keeps a nonnegative balance nonnegative (the last
ledger application re-checked it, or no ledger entry was applied at all). -/
lemma close_loop_ok_nonneg (d : StockPositionClose) (account : StockAccount)
    (remaining : Nat) (lots : List StockPosition) (a' : StockAccount)
    (lots' : List StockPosition) (ledger : List AccountTransactionData)
    (h : close_loop d account remaining lots = .ok (a', lots', ledger))
    (hbal : 0 ≤ account.balance) : 0 ≤ a'.balance := by
  induction lots generalizing account remaining a' lots' ledger with
  | nil =>
    unfold close_loop at h
    split_ifs at h with h0
    all_goals cases h
    exact hbal
  | cons p rest ih =>
    rw [close_loop] at h
    rcases hperf : perform_account_transaction account
        (close_transaction d account
          { p with count_active := p.count_active - min remaining p.count_active }
          (min remaining p.count_active)) with ⟨acc1, err⟩
    rw [hperf] at h
    cases err with
    | some e => simp at h
    | none =>
      simp only at h
      have hacc1 : 0 ≤ acc1.balance := by
        have := perform_account_transaction_ok_nonneg account
          (close_transaction d account
            { p with count_active := p.count_active - min remaining p.count_active }
            (min remaining p.count_active)) (by rw [hperf])
        rwa [hperf] at this
      split_ifs at h with hrem
      · cases h
        exact hacc1
      · rcases hrec : close_loop d acc1 (remaining - min remaining p.count_active) rest with
          e | ⟨accF, restF, ledgerF⟩
        · rw [hrec] at h; simp at h
        · rw [hrec] at h
          cases h
          exact ih _ _ _ _ _ hrec hacc1

/-- Totality of the FIFO loop under benign cash conditions: when the
requested count is positive, every queried lot is a live row (positive
quantity, nonzero id), the symbol id is nonzero and the fee lies between
`0` and the close price, no slice raises `ParameterMissingException` or
`ValueError("Not enough money.")`, so the loop fails — with the
insufficient-open-quantity error carrying the exact uncovered remainder —
precisely when the lots cannot cover the request. -/
lemma close_loop_total (d : StockPositionClose) (account : StockAccount)
    (remaining : Nat) (lots : List StockPosition)
    (hr : 1 ≤ remaining) (hbal : 0 ≤ account.balance)
    (hfee0 : 0 ≤ d.paid_fee) (hfee : d.paid_fee ≤ d.price_per_stock)
    (hpos : ∀ p ∈ lots, 0 < p.count_active) (hid : ∀ p ∈ lots, p.id ≠ 0)
    (hsym : d.stock_symbol_id ≠ 0) :
    (sum_count_active lots < remaining →
      close_loop d account remaining lots =
        .error (.cannotClose (remaining - sum_count_active lots))) ∧
    (remaining ≤ sum_count_active lots →
      ∃ a' lots' ledger,
        close_loop d account remaining lots = .ok (a', lots', ledger)) := by
  induction lots generalizing account remaining with
  | nil =>
    constructor
    · intro _
      unfold close_loop
      rw [if_pos (by omega)]
      simp [sum_count_active]
    · intro hle
      simp [sum_count_active] at hle
      omega
  | cons p rest ih =>
    have hp : 0 < p.count_active := hpos p (by simp)
    have hc1 : 1 ≤ min remaining p.count_active := by omega
    have hpq : 0 ≤ d.price_per_stock := le_trans hfee0 hfee
    have hcredit : 0 ≤ account.balance +
        (d.price_per_stock * (min remaining p.count_active : Nat) - d.paid_fee) := by
      have hcq : (1 : ℤ) ≤ ((min remaining p.count_active : Nat) : ℤ) := by
        exact_mod_cast hc1
      have hmul : d.price_per_stock * 1 ≤
          d.price_per_stock * ((min remaining p.count_active : Nat) : ℤ) :=
        mul_le_mul_of_nonneg_left hcq hpq
      rw [mul_one] at hmul
      linarith
    have hperf :
        perform_account_transaction account
          (close_transaction d account
            { p with count_active := p.count_active - min remaining p.count_active }
            (min remaining p.count_active)) =
          ({ account with balance := account.balance +
              (d.price_per_stock * (min remaining p.count_active : Nat) - d.paid_fee) },
            none) := by
      exact perform_stock_out_ok account _ rfl
        (truthyId_some (hid p (by simp))) (truthyId_some hsym) hcredit
    rcases Nat.eq_zero_or_pos (remaining - min remaining p.count_active) with hz | hnz
    · have hstep : close_loop d account remaining (p :: rest) =
          .ok ({ account with balance := account.balance +
              (d.price_per_stock * (min remaining p.count_active : Nat) - d.paid_fee) },
            { p with count_active := p.count_active - min remaining p.count_active } :: rest,
            [close_transaction d account
              { p with count_active := p.count_active - min remaining p.count_active }
              (min remaining p.count_active)]) := by
        rw [close_loop, hperf]
        simp [hz]
      constructor
      · intro hlt
        exfalso
        simp only [sum_count_active, List.map_cons, List.sum_cons] at hlt
        omega
      · intro _
        exact ⟨_, _, _, hstep⟩
    · have hc : min remaining p.count_active = p.count_active := by omega
      have hbal1 : 0 ≤ ({ account with balance := account.balance +
          (d.price_per_stock * (min remaining p.count_active : Nat) - d.paid_fee) } :
            StockAccount).balance := hcredit
      obtain ⟨ih1, ih2⟩ := ih
        ({ account with balance := account.balance +
            (d.price_per_stock * (min remaining p.count_active : Nat) - d.paid_fee) })
        (remaining - min remaining p.count_active) (by omega) hbal1
        (fun q hq => hpos q (by simp [hq])) (fun q hq => hid q (by simp [hq]))
      have hstep : ∀ z, close_loop d
            ({ account with balance := account.balance +
              (d.price_per_stock * (min remaining p.count_active : Nat) - d.paid_fee) })
            (remaining - min remaining p.count_active) rest = z →
          close_loop d account remaining (p :: rest) =
            match z with
            | .error e => .error e
            | .ok (accF, restF, ledger) =>
                .ok (accF,
                  { p with count_active := p.count_active - min remaining p.count_active }
                    :: restF,
                  close_transaction d account
                    { p with count_active := p.count_active - min remaining p.count_active }
                    (min remaining p.count_active) :: ledger) := by
        intro z hz2
        rw [close_loop, hperf]
        simp only [hz2]
        rw [if_neg (by omega)]
      constructor
      · intro hlt
        simp only [sum_count_active, List.map_cons, List.sum_cons] at hlt
        have herr := ih1 (by simp only [sum_count_active] at *; omega)
        rw [hstep _ herr]
        simp only [sum_count_active] at *
        have : remaining - min remaining p.count_active -
            (List.map (fun p => p.count_active) rest).sum =
            remaining - (p.count_active + (List.map (fun p => p.count_active) rest).sum) := by
          omega
        rw [this]
        simp
      · intro hle
        simp only [sum_count_active, List.map_cons, List.sum_cons] at hle
        obtain ⟨a', lots', ledger, hok⟩ := ih2 (by simp only [sum_count_active]; omega)
        exact ⟨a',
          { p with count_active := p.count_active - min remaining p.count_active } :: lots',
          close_transaction d account
            { p with count_active := p.count_active - min remaining p.count_active }
            (min remaining p.count_active) :: ledger,
          by rw [hstep _ hok]⟩

/-! ### Facts about the lot query -/

lemma mem_open_lots_filter {table : List StockPosition} {account : StockAccount}
    {stock_symbol_id : Nat} {p : StockPosition} :
    p ∈ open_lots_filter table account stock_symbol_id ↔
      p ∈ table ∧ p.account_id = account.id ∧ 0 < p.count_active ∧
        p.stock_symbol_id = stock_symbol_id := by
  simp only [open_lots_filter, List.mem_filter, Bool.and_eq_true, beq_iff_eq, bne_iff_ne,
    ne_eq, and_assoc]
  constructor <;> rintro ⟨h1, h2, h3, h4⟩ <;> exact ⟨h1, h2, by omega, h4⟩

lemma is_open_lots_result_mem {table : List StockPosition} {account : StockAccount}
    {stock_symbol_id : Nat} {result : List StockPosition}
    (h : is_open_lots_result table account stock_symbol_id result) :
    ∀ p ∈ result, p ∈ table ∧ p.account_id = account.id ∧ 0 < p.count_active ∧
      p.stock_symbol_id = stock_symbol_id := by
  intro p hp
  exact mem_open_lots_filter.mp (h.1.mem_iff.mp hp)

lemma is_open_lots_result_sum {table : List StockPosition} {account : StockAccount}
    {stock_symbol_id : Nat} {result : List StockPosition}
    (h : is_open_lots_result table account stock_symbol_id result) :
    sum_count_active result =
      sum_count_active (open_lots_filter table account stock_symbol_id) := by
  unfold sum_count_active
  exact (h.1.map fun p => p.count_active).sum_eq

/-- Two row lists that are permutations of each other, both weakly sorted
by a key that takes pairwise-distinct values, are equal: a sort on a
duplicate-free key determines the order completely. -/
lemma eq_of_perm_of_sorted_of_nodup_key (key : StockPosition → Nat)
    (l₁ l₂ : List StockPosition) (hp : l₁.Perm l₂)
    (hs₁ : l₁.Sorted fun a b => key a ≤ key b)
    (hs₂ : l₂.Sorted fun a b => key a ≤ key b)
    (hnd : (l₁.map key).Nodup) : l₁ = l₂ := by
  have hnd₁ : l₁.Pairwise fun a b => key a ≠ key b := List.pairwise_map.mp hnd
  have hnd₂ : l₂.Pairwise fun a b => key a ≠ key b :=
    List.pairwise_map.mp ((hp.map key).nodup_iff.mp hnd)
  have hs₁' : l₁.Pairwise fun a b => key a < key b :=
    (hs₁.and hnd₁).imp fun h => lt_of_le_of_ne h.1 h.2
  have hs₂' : l₂.Pairwise fun a b => key a < key b :=
    (hs₂.and hnd₂).imp fun h => lt_of_le_of_ne h.1 h.2
  exact @List.eq_of_perm_of_sorted _ _
    ⟨fun a b h1 h2 => absurd (lt_trans h1 h2) (lt_irrefl _)⟩ _ _ hp hs₁' hs₂'

/-- Successful `stock_in` ledger application: with the reference ids
truthy and the debited balance nonnegative, `perform_account_transaction`
commits the debit and raises nothing. -/
lemma perform_stock_in_ok (account : StockAccount)
    (transaction : AccountTransactionData)
    (htype : transaction.transaction_type = .stock_in)
    (hpos : truthyId transaction.stock_position_id = true)
    (hsym : truthyId transaction.stock_symbol_id = true)
    (hbal : 0 ≤ account.balance - (transaction.total_amount + transaction.paid_fee)) :
    perform_account_transaction account transaction =
      ({ account with
          balance := account.balance - (transaction.total_amount + transaction.paid_fee) },
        none) := by
  unfold perform_account_transaction
  rw [htype]
  simp [hpos, hsym, not_lt.mpr hbal]

/-- Inversion of a successful open: the single ledger application
committed and produced the returned account, and the returned position is
the freshly created row. -/
lemma open_ok_inv (account : StockAccount) (stock_position_data : StockPositionOpen)
    (new_position_id : Nat) (a' : StockAccount) (p : StockPosition)
    (h : open_stock_position_with_transaction account stock_position_data new_position_id =
      .ok (a', p)) :
    perform_account_transaction account
        (open_transaction account stock_position_data new_position_id) = (a', none) ∧
      p = open_position account stock_position_data new_position_id := by
  unfold open_stock_position_with_transaction at h
  rcases hperf : perform_account_transaction account
      (open_transaction account stock_position_data new_position_id) with ⟨acc1, err⟩
  rw [hperf] at h
  cases err with
  | some e => cases h
  | none =>
    cases h
    exact ⟨rfl, rfl⟩

/-- Summing per-slice credits over a ledger whose entries all carry the
same fee and `total_amount = price × quantity`. -/
lemma ledger_credit_sum (price fee : ℤ) (L : List AccountTransactionData)
    (hL : ∀ t ∈ L, t.total_amount = price * t.count_items ∧ t.paid_fee = fee) :
    (L.map fun t => t.total_amount - t.paid_fee).sum =
      price * (((L.map fun t => t.count_items).sum : Nat) : ℤ) - L.length * fee := by
  induction L with
  | nil => simp
  | cons t ts ih =>
    simp only [List.map_cons, List.sum_cons, List.length_cons]
    rw [ih fun u hu => hL u (by simp [hu]), (hL t (by simp)).1, (hL t (by simp)).2]
    push_cast
    ring

/-- With the required reference ids present, the only check that can fire
in `perform_account_transaction` is the balance check, evaluated on the
already-mutated balance: the call commits the signed delta and raises
`ValueError("Not enough money.")` exactly when the new balance is
negative. -/
lemma perform_of_refs (account : StockAccount)
    (transaction : AccountTransactionData) (h : refs_present transaction) :
    perform_account_transaction account transaction =
      ({ account with balance := account.balance + transaction_delta transaction },
        if account.balance + transaction_delta transaction < 0 then
          some .notEnoughMoney
        else none) := by
  obtain ⟨h1, h2⟩ := h
  obtain ⟨dt, aid, ta, ty, ppi, ci, fee, sym, pos⟩ := transaction
  simp only at h1 h2
  cases ty with
  | stock_in =>
    obtain ⟨hp, hs⟩ := h1 (Or.inl rfl)
    unfold perform_account_transaction transaction_delta
    simp only
    rw [if_neg (by simp [hp, hs]), if_neg (by simp)]
    simp only [sub_eq_add_neg]
    split_ifs <;> rfl
  | withdrawal =>
    unfold perform_account_transaction transaction_delta
    simp only
    rw [if_neg (by simp), if_neg (by simp)]
    simp only [sub_eq_add_neg]
    split_ifs <;> rfl
  | stock_out =>
    obtain ⟨hp, hs⟩ := h1 (Or.inr rfl)
    unfold perform_account_transaction transaction_delta
    simp only
    rw [if_neg (by simp [hp, hs]), if_neg (by simp)]
    split_ifs <;> rfl
  | dividends =>
    have hs := h2 rfl
    unfold perform_account_transaction transaction_delta
    simp only
    rw [if_neg (by simp), if_neg (by simp [hs])]
    split_ifs <;> rfl
  | deposit =>
    unfold perform_account_transaction transaction_delta
    simp only
    rw [if_neg (by simp), if_neg (by simp)]
    split_ifs <;> rfl

/-! ### Concrete sample data used by witnesses and counterexamples -/

/-- Three open lots of symbol 7 with strictly increasing open timestamps
and active quantities `[5, 3, 2]` (the spec's FIFO-ordering scenario). -/
def fifo_lot1 : StockPosition :=
  { id := 1, count_active := 5, datetime_opened := 1, account_id := 1,
    price_per_stock_in := 1, stock_symbol_id := 7 }

def fifo_lot2 : StockPosition :=
  { id := 2, count_active := 3, datetime_opened := 2, account_id := 1,
    price_per_stock_in := 1, stock_symbol_id := 7 }

def fifo_lot3 : StockPosition :=
  { id := 3, count_active := 2, datetime_opened := 3, account_id := 1,
    price_per_stock_in := 1, stock_symbol_id := 7 }

def fifo_account : StockAccount := { id := 1, balance := 0 }

/-- Close 6 units of symbol 7 at price 1, zero fee. -/
def fifo_close : StockPositionClose :=
  { stock_symbol_id := 7, count := 6, price_per_stock := 1, paid_fee := 0,
    datetime_closed := 9 }

/-- Request to close 6 units when only 5 are active, with a fee of 10
exceeding the proceeds: the loop dies on the cash check of the first
slice, before the quantity check is reached. -/
def c2_close : StockPositionClose :=
  { stock_symbol_id := 7, count := 6, price_per_stock := 1, paid_fee := 10,
    datetime_closed := 2 }

/-- Two lots sharing an open timestamp (quantities 5 and 3, ids 1 and 2). -/
def tie_lot1 : StockPosition :=
  { id := 1, count_active := 5, datetime_opened := 10, account_id := 1,
    price_per_stock_in := 1, stock_symbol_id := 7 }

def tie_lot2 : StockPosition :=
  { id := 2, count_active := 3, datetime_opened := 10, account_id := 1,
    price_per_stock_in := 1, stock_symbol_id := 7 }

def tie_close : StockPositionClose :=
  { stock_symbol_id := 7, count := 2, price_per_stock := 1, paid_fee := 0,
    datetime_closed := 11 }

/-- The spec's worked scenario: balance 1000, open 10 @ 50 fee 5, then
close 4 @ 60 fee 2. -/
def c8_account : StockAccount := { id := 1, balance := 1000 }

def c8_open : StockPositionOpen :=
  { stock_symbol_id := 7, count := 10, price_per_stock := 50, paid_fee := 5,
    datetime_opened := 1 }

def c8_lot : StockPosition :=
  { id := 1, count_active := 10, datetime_opened := 1, account_id := 1,
    price_per_stock_in := 50, stock_symbol_id := 7 }

def c8_close : StockPositionClose :=
  { stock_symbol_id := 7, count := 4, price_per_stock := 60, paid_fee := 2,
    datetime_closed := 2 }

def c8_out_entry : AccountTransactionData :=
  { datetime_performed := 2, account_id := 1, total_amount := 240,
    transaction_type := .stock_out, price_per_item := 60, count_items := 4,
    paid_fee := 2, stock_symbol_id := some 7, stock_position_id := some 1 }

/-- Close request fully covered by the open lot (5 of 5 units) whose fee
(10) exceeds the proceeds (5): the credit drives the balance negative. -/
def c9_close : StockPositionClose :=
  { stock_symbol_id := 7, count := 5, price_per_stock := 1, paid_fee := 10,
    datetime_closed := 2 }

/-- A withdrawal of 5 from a zero-balance account: `perform_account_transaction`
raises, with the debit already applied in memory. -/
def c10_withdrawal : AccountTransactionData :=
  { datetime_performed := 1, account_id := 1, total_amount := 5,
    transaction_type := .withdrawal, price_per_item := 5, count_items := 1,
    paid_fee := 0, stock_symbol_id := none, stock_position_id := none }

/-- A deposit of 5 with fee 1 (all reference checks pass vacuously). -/
def c3_deposit : AccountTransactionData :=
  { datetime_performed := 1, account_id := 1, total_amount := 5,
    transaction_type := .deposit, price_per_item := 5, count_items := 1,
    paid_fee := 1, stock_symbol_id := none, stock_position_id := none }

/-- Ledger entries produced by `fifo_close` on the three sample lots. -/
def fifo_out1 : AccountTransactionData :=
  { datetime_performed := 9, account_id := 1, total_amount := 5,
    transaction_type := .stock_out, price_per_item := 1, count_items := 5,
    paid_fee := 0, stock_symbol_id := some 7, stock_position_id := some 1 }

def fifo_out2 : AccountTransactionData :=
  { datetime_performed := 9, account_id := 1, total_amount := 1,
    transaction_type := .stock_out, price_per_item := 1, count_items := 1,
    paid_fee := 0, stock_symbol_id := some 7, stock_position_id := some 2 }

/-! ### The claims -/

/-- C1: the closing operation consumes open lots of the requested
instrument strictly oldest-first: for every close request on a row list
returned by the lot query (which is ordered by ascending open timestamp),
the committed lot list is the FIFO drain that decrements each touched lot
by `consumed = min(remaining, lot.quantity_active)`, and — since the drain
with `remaining = 0` is the identity — lots beyond the point where
`remaining` reaches 0 are left unchanged. -/
theorem spec_C1 (d : StockPositionClose) (table : List StockPosition)
    (account : StockAccount) (lots : List StockPosition) (a' : StockAccount)
    (lots' : List StockPosition) (ledger : List AccountTransactionData)
    (hq : is_open_lots_result table account d.stock_symbol_id lots)
    (hok : close_stock_positions_with_transactions d account lots =
      .ok (a', lots', ledger)) :
    lots' = fifoSpecClose d.count lots ∧ ∀ rest, fifoSpecClose 0 rest = rest := by
  refine ⟨?_, fifoSpecClose_zero⟩
  unfold close_stock_positions_with_transactions at hok
  exact close_loop_ok_lots d account d.count lots a' lots' ledger hok

/-- Witness for C1: the spec's own scenario — lots opened at t1 < t2 < t3
with quantities [5, 3, 2], closing 6 drains lot 1 to 0, takes lot 2 from 3
to 2, and leaves lot 3 at 2. -/
theorem spec_C1_witness :
    [{ fifo_lot1 with count_active := 0 }, { fifo_lot2 with count_active := 2 },
      fifo_lot3] =
      fifoSpecClose fifo_close.count [fifo_lot1, fifo_lot2, fifo_lot3] :=
  (spec_C1 fifo_close [fifo_lot1, fifo_lot2, fifo_lot3] fifo_account
    [fifo_lot1, fifo_lot2, fifo_lot3] { id := 1, balance := 6 }
    [{ fifo_lot1 with count_active := 0 }, { fifo_lot2 with count_active := 2 },
      fifo_lot3]
    [fifo_out1, fifo_out2] (by decide) (by decide)).1

/-- Counterexample to C2 as stated: closing 6 units when only 5 are active
(so the requested quantity strictly exceeds the total active quantity)
raises `ValueError("Not enough money.")` — the per-slice fee of 10 drives
the balance negative inside the loop — and *not* the
insufficient-open-quantity error the claim promises for every such
request. -/
theorem spec_C2_counterexample :
    sum_count_active [fifo_lot1] < c2_close.count ∧
    is_open_lots_result [fifo_lot1] fifo_account c2_close.stock_symbol_id
      [fifo_lot1] ∧
    close_stock_positions_with_transactions c2_close fifo_account [fifo_lot1] =
      .error .notEnoughMoney ∧
    close_stock_positions_with_transactions c2_close fifo_account [fifo_lot1] ≠
      .error (.cannotClose (c2_close.count - sum_count_active [fifo_lot1])) := by
  decide

/-- C2 (amended): provided no slice can trip the balance check first —
starting balance nonnegative and `0 ≤ fee ≤ close price`, with a positive
request against live rows — the closing operation raises the
insufficient-open-quantity error (with the uncovered remainder) iff the
requested count exceeds the sum of `quantity_active` over the open lots;
closing exactly that sum succeeds and leaves every lot at
`quantity_active = 0` with no lot deleted. -/
theorem spec_C2_amended (table : List StockPosition) (account : StockAccount)
    (d : StockPositionClose) (lots : List StockPosition)
    (hq : is_open_lots_result table account d.stock_symbol_id lots)
    (hcount : 1 ≤ d.count) (hbal : 0 ≤ account.balance)
    (hfee0 : 0 ≤ d.paid_fee) (hfee : d.paid_fee ≤ d.price_per_stock)
    (hids : ∀ p ∈ table, p.id ≠ 0) (hsym : d.stock_symbol_id ≠ 0) :
    (close_stock_positions_with_transactions d account lots =
        .error (.cannotClose (d.count - sum_count_active lots)) ↔
      sum_count_active lots < d.count) ∧
    (d.count = sum_count_active lots →
      ∃ a' lots' ledger,
        close_stock_positions_with_transactions d account lots =
          .ok (a', lots', ledger) ∧
        (∀ p ∈ lots', p.count_active = 0) ∧ lots'.length = lots.length) := by
  have hpos : ∀ p ∈ lots, 0 < p.count_active :=
    fun p hp => (is_open_lots_result_mem hq p hp).2.2.1
  have hid : ∀ p ∈ lots, p.id ≠ 0 :=
    fun p hp => hids p (is_open_lots_result_mem hq p hp).1
  obtain ⟨h1, h2⟩ :=
    close_loop_total d account d.count lots hcount hbal hfee0 hfee hpos hid hsym
  unfold close_stock_positions_with_transactions
  constructor
  · constructor
    · intro herr
      by_contra hle
      push_neg at hle
      obtain ⟨a', l', lg, hok⟩ := h2 hle
      rw [hok] at herr
      cases herr
    · exact h1
  · intro heq
    obtain ⟨a', l', lg, hok⟩ := h2 (le_of_eq heq)
    have hl := close_loop_ok_lots d account d.count lots a' l' lg hok
    refine ⟨a', l', lg, hok, ?_, ?_⟩
    · rw [hl]
      exact fifoSpecClose_all_zero d.count lots (le_of_eq heq.symm)
    · rw [hl]
      exact fifoSpecClose_length _ _

/-- Witness for C2 (amended): closing exactly the 10 active units (5+3+2)
of the sample lots succeeds and zeroes all three lots. -/
theorem spec_C2_amended_witness :
    ∃ a' lots' ledger,
      close_stock_positions_with_transactions
        { stock_symbol_id := 7, count := 10, price_per_stock := 1, paid_fee := 0,
          datetime_closed := 9 } fifo_account [fifo_lot1, fifo_lot2, fifo_lot3] =
        .ok (a', lots', ledger) ∧
      (∀ p ∈ lots', p.count_active = 0) ∧
      lots'.length = ([fifo_lot1, fifo_lot2, fifo_lot3] : List StockPosition).length :=
  (spec_C2_amended [fifo_lot1, fifo_lot2, fifo_lot3] fifo_account
    { stock_symbol_id := 7, count := 10, price_per_stock := 1, paid_fee := 0,
      datetime_closed := 9 } [fifo_lot1, fifo_lot2, fifo_lot3]
    (by decide) (by decide) (by decide) (by decide) (by decide) (by decide)
    (by decide)).2 (by decide)

/-- C3: with the reference checks satisfied, applying a ledger entry uses
`delta = −(total_amount + fee)` for the debit kinds (`stock_in`,
`withdrawal`) and `delta = +(total_amount − fee)` for the credit kinds
(`stock_out`, `dividends`, `deposit`); it raises the insufficient-funds
error exactly when `balance + delta < 0`, succeeds exactly otherwise, and
the account's balance becomes `balance + delta`. -/
theorem spec_C3 (account : StockAccount) (transaction : AccountTransactionData)
    (h : refs_present transaction) :
    ((perform_account_transaction account transaction).2 = some .notEnoughMoney ↔
      account.balance + transaction_delta transaction < 0) ∧
    ((perform_account_transaction account transaction).2 = none ↔
      0 ≤ account.balance + transaction_delta transaction) ∧
    (perform_account_transaction account transaction).1.balance =
      account.balance + transaction_delta transaction := by
  rw [perform_of_refs account transaction h]
  refine ⟨?_, ?_, rfl⟩
  · split_ifs with hb
    · simpa using hb
    · simpa using hb
  · split_ifs with hb
    · simpa using not_le.mpr hb
    · simpa using not_lt.mp hb

/-- Witness for C3: a deposit of 5 with fee 1 on a zero balance credits 4
and raises nothing. -/
theorem spec_C3_witness :
    ((perform_account_transaction fifo_account c3_deposit).2 =
        some .notEnoughMoney ↔
      fifo_account.balance + transaction_delta c3_deposit < 0) ∧
    ((perform_account_transaction fifo_account c3_deposit).2 = none ↔
      0 ≤ fifo_account.balance + transaction_delta c3_deposit) ∧
    (perform_account_transaction fifo_account c3_deposit).1.balance =
      fifo_account.balance + transaction_delta c3_deposit :=
  spec_C3 fifo_account c3_deposit (by decide)

/-- C10: `perform_account_transaction` mutates the account's balance
before any validation: whenever it raises (any of its errors), the
returned in-memory account already carries `balance + delta`, not the
pre-call balance — restoring state on error is left entirely to the
surrounding transaction rollback. -/
theorem spec_C10 (account : StockAccount) (transaction : AccountTransactionData)
    (e : TxError)
    (h : (perform_account_transaction account transaction).2 = some e) :
    (perform_account_transaction account transaction).1.balance =
      account.balance + transaction_delta transaction := by
  rw [perform_account_transaction_fst]

/-- Witness for C10: withdrawing 5 from a zero balance raises
`ValueError("Not enough money.")` while the in-memory balance is already
−5. -/
theorem spec_C10_witness :
    (perform_account_transaction fifo_account c10_withdrawal).1.balance =
      fifo_account.balance + transaction_delta c10_withdrawal :=
  spec_C10 fifo_account c10_withdrawal .notEnoughMoney (by decide)

/-- C4: the account balance is never negative after any committed
operation: along every sequence of position-opening and position-closing
steps that complete without raising, starting from a valid account
(`balance ≥ 0` is enforced at account creation), the balance stays
nonnegative. -/
theorem spec_C4 (s₀ s : PortfolioState) (hbal : 0 ≤ s₀.account.balance)
    (h : Relation.ReflTransGen CommittedStep s₀ s) :
    0 ≤ s.account.balance := by
  induction h with
  | refl => exact hbal
  | tail hab hbc ih =>
    cases hbc with
    | openPos d nid a' p hok =>
      obtain ⟨hperf, -⟩ := open_ok_inv _ d nid a' p hok
      have h2 := perform_account_transaction_ok_nonneg _ _ (by rw [hperf])
      rw [hperf] at h2
      exact h2
    | closePos d res a' lots' lg hq hok =>
      unfold close_stock_positions_with_transactions at hok
      exact close_loop_ok_nonneg d _ d.count res a' lots' lg hok ih

/-- Witness for C4: the empty sequence of operations on a fresh
zero-balance account. -/
theorem spec_C4_witness :
    0 ≤ (PortfolioState.mk fifo_account []).account.balance :=
  spec_C4 ⟨fifo_account, []⟩ ⟨fifo_account, []⟩ (by decide) .refl

/-- C5: a committed close creates one `stock_out` ledger entry per lot
touched (in order, each referencing its lot), carrying that slice's
quantity and `total_amount = close_price × consumed`, with the full
requested fee charged once per lot touched; the slice quantities sum to
the requested count, so a close touching `k` lots credits
`close_price × quantity − k × fee` in total. -/
theorem spec_C5 (d : StockPositionClose) (table : List StockPosition)
    (account : StockAccount) (lots : List StockPosition) (a' : StockAccount)
    (lots' : List StockPosition) (ledger : List AccountTransactionData)
    (hq : is_open_lots_result table account d.stock_symbol_id lots)
    (hok : close_stock_positions_with_transactions d account lots =
      .ok (a', lots', ledger)) :
    (∀ t ∈ ledger, t.transaction_type = .stock_out ∧ t.paid_fee = d.paid_fee ∧
      t.total_amount = d.price_per_stock * t.count_items) ∧
    ledger.map (fun t => t.stock_position_id) =
      (lots.take ledger.length).map (fun p => some p.id) ∧
    (ledger.map fun t => t.count_items).sum = d.count ∧
    a'.balance = account.balance + d.price_per_stock * (d.count : ℤ) -
      (ledger.length : ℤ) * d.paid_fee := by
  unfold close_stock_positions_with_transactions at hok
  obtain ⟨hf, hmap, hsum⟩ :=
    close_loop_ok_ledger d account d.count lots a' lots' ledger hok
  have hbal := close_loop_ok_balance d account d.count lots a' lots' ledger hok
  refine ⟨fun t ht => ⟨(hf t ht).1, (hf t ht).2.1, (hf t ht).2.2.2.1⟩, hmap, hsum, ?_⟩
  rw [hbal, ledger_credit_sum d.price_per_stock d.paid_fee ledger
    (fun t ht => ⟨(hf t ht).2.2.2.1, (hf t ht).2.1⟩), hsum]
  ring

/-- Ledger entries produced by closing 6 units at price 2 fee 1 over the
sample lots [5, 3]: the full fee is charged on each of the two slices. -/
def c5_close : StockPositionClose :=
  { stock_symbol_id := 7, count := 6, price_per_stock := 2, paid_fee := 1,
    datetime_closed := 9 }

def c5_out1 : AccountTransactionData :=
  { datetime_performed := 9, account_id := 1, total_amount := 10,
    transaction_type := .stock_out, price_per_item := 2, count_items := 5,
    paid_fee := 1, stock_symbol_id := some 7, stock_position_id := some 1 }

def c5_out2 : AccountTransactionData :=
  { datetime_performed := 9, account_id := 1, total_amount := 2,
    transaction_type := .stock_out, price_per_item := 2, count_items := 1,
    paid_fee := 1, stock_symbol_id := some 7, stock_position_id := some 2 }

/-- Witness for C5: closing 6 units at price 2 with fee 1 over lots
[5, 3] creates two entries and credits 2×6 − 2×1 = 10. -/
theorem spec_C5_witness :
    (∀ t ∈ [c5_out1, c5_out2], t.transaction_type = .stock_out ∧
      t.paid_fee = c5_close.paid_fee ∧
      t.total_amount = c5_close.price_per_stock * t.count_items) ∧
    ([c5_out1, c5_out2] : List AccountTransactionData).map
        (fun t => t.stock_position_id) =
      (([fifo_lot1, fifo_lot2] : List StockPosition).take
        ([c5_out1, c5_out2] : List AccountTransactionData).length).map
        (fun p => some p.id) ∧
    (([c5_out1, c5_out2] : List AccountTransactionData).map
      fun t => t.count_items).sum = c5_close.count ∧
    (StockAccount.mk 1 10).balance = fifo_account.balance +
      c5_close.price_per_stock * (c5_close.count : ℤ) -
      ((([c5_out1, c5_out2] : List AccountTransactionData).length : ℤ)) *
        c5_close.paid_fee :=
  spec_C5 c5_close [fifo_lot1, fifo_lot2] fifo_account [fifo_lot1, fifo_lot2]
    (StockAccount.mk 1 10)
    [{ fifo_lot1 with count_active := 0 }, { fifo_lot2 with count_active := 2 }]
    [c5_out1, c5_out2] (by decide) (by decide)

/-- Counterexample to C6 as stated: two lots of the same instrument share
an open timestamp (ids 1 and 2).  The row order `[lot 2, lot 1]` is a
perfectly valid result of the code's query — which orders by
`datetime_opened` only, with no tie-break — and under it the close
consumes lot 2 first, leaving lot 1 (the smaller identifier) untouched;
the two admissible orders produce different committed states, so FIFO
consumption on timestamp ties is neither ascending-by-identifier nor
deterministic. -/
theorem spec_C6_counterexample :
    is_open_lots_result [tie_lot1, tie_lot2] fifo_account
      tie_close.stock_symbol_id [tie_lot2, tie_lot1] ∧
    is_open_lots_result [tie_lot1, tie_lot2] fifo_account
      tie_close.stock_symbol_id [tie_lot1, tie_lot2] ∧
    close_stock_positions_with_transactions tie_close fifo_account
        [tie_lot2, tie_lot1] =
      .ok ({ id := 1, balance := 2 },
        [{ tie_lot2 with count_active := 1 }, tie_lot1],
        [{ datetime_performed := 11, account_id := 1, total_amount := 2,
           transaction_type := .stock_out, price_per_item := 1, count_items := 2,
           paid_fee := 0, stock_symbol_id := some 7, stock_position_id := some 2 }]) ∧
    close_stock_positions_with_transactions tie_close fifo_account
        [tie_lot2, tie_lot1] ≠
      close_stock_positions_with_transactions tie_close fifo_account
        [tie_lot1, tie_lot2] := by
  decide

/-- C6 (amended): the query orders lots by ascending open timestamp only,
and the close consumes them in the returned order; when the open
timestamps of the open lots are pairwise distinct the returned order — and
hence the closing operation's behaviour — is uniquely determined.  On
timestamp ties the code imposes no identifier tie-break and the order is
whatever the database returns. -/
theorem spec_C6_amended (table : List StockPosition) (account : StockAccount)
    (stock_symbol_id : Nat) (res₁ res₂ : List StockPosition)
    (hnd : ((open_lots_filter table account stock_symbol_id).map
      fun p => p.datetime_opened).Nodup)
    (h₁ : is_open_lots_result table account stock_symbol_id res₁)
    (h₂ : is_open_lots_result table account stock_symbol_id res₂) :
    res₁ = res₂ ∧
    ∀ d a, close_stock_positions_with_transactions d a res₁ =
      close_stock_positions_with_transactions d a res₂ := by
  have hperm : res₁.Perm res₂ := h₁.1.trans h₂.1.symm
  have hnd₁ : (res₁.map fun p => p.datetime_opened).Nodup :=
    ((h₁.1.map fun p => p.datetime_opened).nodup_iff).mpr hnd
  have heq := eq_of_perm_of_sorted_of_nodup_key (fun p => p.datetime_opened)
    res₁ res₂ hperm h₁.2 h₂.2 hnd₁
  exact ⟨heq, fun d a => by rw [heq]⟩

/-- Witness for C6 (amended): the three sample lots have distinct open
timestamps, so the sorted order is unique. -/
theorem spec_C6_amended_witness :
    ([fifo_lot1, fifo_lot2, fifo_lot3] : List StockPosition) =
      [fifo_lot1, fifo_lot2, fifo_lot3] :=
  (spec_C6_amended [fifo_lot1, fifo_lot2, fifo_lot3] fifo_account 7
    [fifo_lot1, fifo_lot2, fifo_lot3] [fifo_lot1, fifo_lot2, fifo_lot3]
    (by decide) (by decide) (by decide)).1

/-- C7: round trip.  For an account with sufficient balance, opening a
position of quantity Q at price P with zero fee and then immediately
closing quantity Q at price P with zero fee returns the balance exactly to
its pre-open value — whatever lots of the same instrument already exist
and whatever admissible order the lot query returns them in. -/
theorem spec_C7 (account : StockAccount) (table : List StockPosition)
    (stock_position_data : StockPositionOpen)
    (new_position_id datetime_closed : Nat)
    (hfee : stock_position_data.paid_fee = 0)
    (hcount : 1 ≤ stock_position_data.count)
    (hprice : 0 ≤ stock_position_data.price_per_stock)
    (hbal : stock_position_data.price_per_stock * (stock_position_data.count : ℤ) ≤
      account.balance)
    (hid : new_position_id ≠ 0) (hsym : stock_position_data.stock_symbol_id ≠ 0)
    (hids : ∀ p ∈ table, p.id ≠ 0) :
    ∃ a' p,
      open_stock_position_with_transaction account stock_position_data
        new_position_id = .ok (a', p) ∧
      ∀ lots,
        is_open_lots_result (table ++ [p]) a'
          stock_position_data.stock_symbol_id lots →
        ∃ a'' lots' ledger,
          close_stock_positions_with_transactions
            { stock_symbol_id := stock_position_data.stock_symbol_id,
              count := stock_position_data.count,
              price_per_stock := stock_position_data.price_per_stock,
              paid_fee := 0, datetime_closed := datetime_closed } a' lots =
            .ok (a'', lots', ledger) ∧
          a''.balance = account.balance := by
  have hperf : perform_account_transaction account
      (open_transaction account stock_position_data new_position_id) =
      ({ account with balance := account.balance -
          ((open_transaction account stock_position_data new_position_id).total_amount +
            (open_transaction account stock_position_data new_position_id).paid_fee) },
        none) := by
    apply perform_stock_in_ok
    · rfl
    · exact truthyId_some hid
    · exact truthyId_some hsym
    · show 0 ≤ account.balance -
        (stock_position_data.price_per_stock * (stock_position_data.count : ℤ) +
          stock_position_data.paid_fee)
      rw [hfee]
      linarith
  have hopen : open_stock_position_with_transaction account stock_position_data
      new_position_id =
      .ok ({ account with balance := account.balance -
          ((open_transaction account stock_position_data new_position_id).total_amount +
            (open_transaction account stock_position_data new_position_id).paid_fee) },
        open_position account stock_position_data new_position_id) := by
    unfold open_stock_position_with_transaction
    rw [hperf]
  refine ⟨_, _, hopen, ?_⟩
  intro lots hq
  have hpos : ∀ q ∈ lots, 0 < q.count_active :=
    fun q hqm => (is_open_lots_result_mem hq q hqm).2.2.1
  have hidq : ∀ q ∈ lots, q.id ≠ 0 := by
    intro q hqm
    have hmem := (is_open_lots_result_mem hq q hqm).1
    rcases List.mem_append.mp hmem with hmem | hmem
    · exact hids q hmem
    · simp only [List.mem_singleton] at hmem
      subst hmem
      exact hid
  have hsum : stock_position_data.count ≤ sum_count_active lots := by
    rw [is_open_lots_result_sum hq]
    have hpmem : open_position account stock_position_data new_position_id ∈
        open_lots_filter
          (table ++ [open_position account stock_position_data new_position_id])
          { account with balance := account.balance -
              ((open_transaction account stock_position_data
                new_position_id).total_amount +
                (open_transaction account stock_position_data
                  new_position_id).paid_fee) }
          stock_position_data.stock_symbol_id := by
      apply mem_open_lots_filter.mpr
      exact ⟨by simp, rfl, by simpa [open_position] using hcount, rfl⟩
    have := List.single_le_sum
      (l := (open_lots_filter
        (table ++ [open_position account stock_position_data new_position_id])
        { account with balance := account.balance -
            ((open_transaction account stock_position_data
              new_position_id).total_amount +
              (open_transaction account stock_position_data
                new_position_id).paid_fee) }
        stock_position_data.stock_symbol_id).map fun p => p.count_active)
      (fun x _ => Nat.zero_le x)
      ((open_position account stock_position_data new_position_id).count_active)
      (List.mem_map_of_mem _ hpmem)
    simpa [sum_count_active, open_position] using this
  have hbal0 : (0 : ℤ) ≤ account.balance -
      ((open_transaction account stock_position_data new_position_id).total_amount +
        (open_transaction account stock_position_data new_position_id).paid_fee) := by
    show (0 : ℤ) ≤ account.balance -
      (stock_position_data.price_per_stock * (stock_position_data.count : ℤ) +
        stock_position_data.paid_fee)
    rw [hfee]
    linarith
  obtain ⟨-, hok2⟩ := close_loop_total
    { stock_symbol_id := stock_position_data.stock_symbol_id,
      count := stock_position_data.count,
      price_per_stock := stock_position_data.price_per_stock,
      paid_fee := 0, datetime_closed := datetime_closed }
    { account with balance := account.balance -
        ((open_transaction account stock_position_data new_position_id).total_amount +
          (open_transaction account stock_position_data new_position_id).paid_fee) }
    stock_position_data.count lots hcount hbal0 le_rfl hprice hpos hidq hsym
  obtain ⟨a'', lots', lg, hok⟩ := hok2 hsum
  refine ⟨a'', lots', lg, hok, ?_⟩
  obtain ⟨hf, -, hsum2⟩ := close_loop_ok_ledger _ _ _ lots a'' lots' lg hok
  have hb2 := close_loop_ok_balance _ _ _ lots a'' lots' lg hok
  rw [hb2, ledger_credit_sum stock_position_data.price_per_stock 0 lg
    (fun t ht => ⟨(hf t ht).2.2.2.1, (hf t ht).2.1⟩), hsum2]
  show account.balance -
      (stock_position_data.price_per_stock * (stock_position_data.count : ℤ) +
        stock_position_data.paid_fee) +
      (stock_position_data.price_per_stock * (stock_position_data.count : ℤ) -
        (lg.length : ℤ) * 0) = account.balance
  rw [hfee]
  ring

/-- Witness for C7: balance 100, open 3 units at price 10 (fee 0), close 3
at price 10 (fee 0) — balance returns to 100. -/
theorem spec_C7_witness :
    ∃ a' p,
      open_stock_position_with_transaction { id := 1, balance := 100 }
        { stock_symbol_id := 7, count := 3, price_per_stock := 10, paid_fee := 0,
          datetime_opened := 1 } 4 = .ok (a', p) ∧
      ∀ lots,
        is_open_lots_result ([] ++ [p]) a' 7 lots →
        ∃ a'' lots' ledger,
          close_stock_positions_with_transactions
            { stock_symbol_id := 7, count := 3, price_per_stock := 10,
              paid_fee := 0, datetime_closed := 2 } a' lots =
            .ok (a'', lots', ledger) ∧
          a''.balance = ({ id := 1, balance := 100 } : StockAccount).balance :=
  spec_C7 { id := 1, balance := 100 } []
    { stock_symbol_id := 7, count := 3, price_per_stock := 10, paid_fee := 0,
      datetime_opened := 1 } 4 2 (by decide) (by decide) (by decide) (by decide)
    (by decide) (by decide) (by decide)

/-- C8: the spec's worked scenario.  From balance 1000.00: opening 10
units at 50.00 with fee 5.00 debits 505.00 (1000 − 495 = 505), leaving
balance 495.00 and a lot with `quantity_active = 10`; closing 4 units at
60.00 with fee 2.00 creates a ledger entry crediting 240.00 − 2.00 =
238.00, leaving balance 733.00 and the lot at `quantity_active = 6`. -/
theorem spec_C8 :
    open_stock_position_with_transaction c8_account c8_open 1 =
      .ok ({ id := 1, balance := 495 }, c8_lot) ∧
    c8_account.balance - ({ id := 1, balance := 495 } : StockAccount).balance =
      505 ∧
    is_open_lots_result [c8_lot] { id := 1, balance := 495 }
      c8_close.stock_symbol_id [c8_lot] ∧
    close_stock_positions_with_transactions c8_close { id := 1, balance := 495 }
        [c8_lot] =
      .ok ({ id := 1, balance := 733 }, [{ c8_lot with count_active := 6 }],
        [c8_out_entry]) ∧
    c8_out_entry.total_amount - c8_out_entry.paid_fee = 238 := by
  decide

/-- C9: a closing operation can itself raise the insufficient-funds error
`ValueError("Not enough money.")`: here the open lot fully covers the
requested quantity (5 of 5), but the fee (10) exceeds the slice's proceeds
(1 × 5) by more than the account's balance (0), so the per-slice credit
drives the balance negative and the close fails with insufficient funds,
not with the insufficient-open-quantity error. -/
theorem spec_C9 :
    c9_close.count ≤ sum_count_active [fifo_lot1] ∧
    c9_close.price_per_stock * ((min c9_close.count fifo_lot1.count_active : Nat) : ℤ) +
      fifo_account.balance < c9_close.paid_fee ∧
    is_open_lots_result [fifo_lot1] fifo_account c9_close.stock_symbol_id
      [fifo_lot1] ∧
    close_stock_positions_with_transactions c9_close fifo_account [fifo_lot1] =
      .error .notEnoughMoney := by
  decide

end FamilyBudget
